import Mathlib

/-!
Verification development for the fork-synchronization orchestrator
(`src/Source/Plan.rs`).  The Rust program is shallowly embedded: every
function of the source file becomes a Lean definition of the same name
operating on an explicit repository state (`GitState`), an explicit
filesystem (`FS`), and explicit external inputs (`Env`, `World`) that stand
for the hosting-platform JSON responses, subprocess spawn results and
network outcomes.  Fallible Rust functions returning `Result` become
functions into `StepRes` (ok / propagated error / panic), where the `?`
operator of the source corresponds to the early-exit sequencing of
`runSteps`.

Modelling conventions, each justified by the corresponding Rust/libgit2
semantics:
* Rust `Path` values are component lists (`RPath`): `walkdir` rooted at
  `"."` yields paths whose first component is `CurDir` (printed `./x/y`),
  and `Path::starts_with` / `Path::file_name` are component-wise, exactly
  as in `std::path`.
* libgit2 `tree.get_path` receives the raw path string and splits it on
  `/` without normalizing `.` components (`gitComps`); the operating
  system, by contrast, resolves `.` components when a file is written
  (`osNorm`).
* `std::fs::write` creates the file but never its parent directories:
  `fsWrite` succeeds only when the parent directory already exists.
* `serde_json` indexing (`v["k"]`) yields `null` for a missing key or a
  non-object, `as_str` yields `none` for a non-string, and `Option::unwrap`
  on `none` is a panic, not an error return.
* `Command::status()?` fails only when the process cannot be spawned; the
  exit status of the spawned process is returned and ignored by the source.
-/

/-- Rust path components as produced by `walkdir` rooted at `"."`:
either the `.` component or a normal component. -/
inductive Comp where
  | curDir : Comp
  | normal : String → Comp
deriving DecidableEq, Repr

/-- A Rust `Path`, as its list of components. -/
abbrev RPath := List Comp

/-- The string pieces libgit2 sees when the path is printed and re-split on
`/`: the `.` component prints as `"."` and is not normalized away. -/
def gitComps (p : RPath) : List String :=
  p.map (fun c => match c with | .curDir => "." | .normal s => s)

/-- The path the operating system resolves when the file is written:
`.` components are resolved away. -/
def osNorm (p : RPath) : List String :=
  p.filterMap (fun c => match c with | .curDir => none | .normal s => some s)

/-- `Path::file_name`: the final component when it is a normal component. -/
def fileName (p : RPath) : Option String :=
  match p.getLast? with
  | some (.normal s) => some s
  | _ => none

/-- `Path::starts_with`: component-wise prefix test. -/
def startsWithP (p q : RPath) : Bool := q.isPrefixOf p

/-- serde_json values. -/
inductive JValue where
  | null : JValue
  | bool : Bool → JValue
  | num : Int → JValue
  | str : String → JValue
  | arr : List JValue → JValue
  | obj : List (String × JValue) → JValue

/-- Lookup of a key among the fields of a JSON object. -/
def jLookup : List (String × JValue) → String → Option JValue
  | [], _ => none
  | (k, v) :: rest, k' => if k = k' then some v else jLookup rest k'

/-- serde_json `v["k"]`: `null` when the value is not an object or the key
is absent. -/
def jGet (v : JValue) (k : String) : JValue :=
  match v with
  | .obj fields =>
    match jLookup fields k with
    | some w => w
    | none => .null
  | _ => .null

/-- serde_json `Value::as_str`. -/
def jAsStr (v : JValue) : Option String :=
  match v with
  | .str s => some s
  | _ => none

/-- Error taxonomy of the embedded program. -/
inductive Err where
  | remoteExists : Err
  | remoteNotFound : Err
  | branchNotFound : Err
  | pathNotFound : Err
  | notABlob : Err
  | ioWrite : Err
  | platformQuery : Err
  | objectNotFound : Err
  | ioSpawn : Err
  | netFetch : Err
  | netPush : Err
  | mergeFail : Err
  | branchExists : Err
  | unbornHead : Err
deriving DecidableEq, Repr

/-- Outcome of a pure fallible computation: Rust `Ok`, a propagated `Err`,
or a process panic (`Option::unwrap` on `None`). -/
inductive POut (α : Type) where
  | ok : α → POut α
  | err : Err → POut α
  | panic : POut α
deriving DecidableEq, Repr

/-- External inputs of `get_parent_default_branch`: the two `gh` query
outputs, each `none` when the query could not be spawned or its stdout
could not be parsed as JSON (both surface as a propagated error in the
source), and `some v` when it parsed to the JSON value `v`. -/
structure Env where
  ghParent : Option JValue
  ghBranch : Option JValue

/-- `get_parent_default_branch` (src/Source/Plan.rs:377-395): runs
`gh repo view --json parent`, parses it, reads
`parent.owner.login` / `parent.name` with `as_str().unwrap()` (a panic when
the field is missing or not a string), then queries the parent repository
for `defaultBranchRef.name`, again with `as_str().unwrap()`. -/
def get_parent_default_branch (env : Env) : POut String :=
  match env.ghParent with
  | none => .err .platformQuery
  | some parentInfo =>
    match jAsStr (jGet (jGet (jGet parentInfo "parent") "owner") "login") with
    | none => .panic
    | some _owner =>
      match jAsStr (jGet (jGet parentInfo "parent") "name") with
      | none => .panic
      | some _name =>
        match env.ghBranch with
        | none => .err .platformQuery
        | some branchInfo =>
          match jAsStr (jGet (jGet branchInfo "defaultBranchRef") "name") with
          | none => .panic
          | some b => .ok b

/-- Association-list lookup (first match). -/
def lookupA {α β : Type} [DecidableEq α] : List (α × β) → α → Option β
  | [], _ => none
  | p :: rest, k' => if p.1 = k' then some p.2 else lookupA rest k'

/-- Key membership in an association list. -/
def containsK {α β : Type} [DecidableEq α] (l : List (α × β)) (k : α) : Bool :=
  (lookupA l k).isSome

/-- Update an association list at a key: replace in place when present
(preserving order), append otherwise. -/
def updF {α β : Type} [DecidableEq α] (l : List (α × β)) (k : α) (v : β) :
    List (α × β) :=
  if containsK l k then l.map (fun p => if p.1 = k then (k, v) else p)
  else l ++ [(k, v)]

/-- Remove every entry with the given key. -/
def eraseK {α β : Type} [DecidableEq α] (l : List (α × β)) (k : α) :
    List (α × β) :=
  l.filter (fun p => !decide (p.1 = k))

/-- A git tree entry: a blob with byte content, or a subtree. -/
inductive GEntry where
  | blob : List Nat → GEntry
  | sub : List (String × GEntry) → GEntry

/-- A git tree: named entries. -/
abbrev GTree := List (String × GEntry)

/-- Entry lookup by name within one tree level. -/
def treeLookup : GTree → String → Option GEntry
  | [], _ => none
  | (n, e) :: rest, k => if n = k then some e else treeLookup rest k

/-- libgit2 `git_tree_entry_bypath`: walk the slash-separated components of
the raw path string; no normalization of `.` components is performed, and
an empty path finds nothing. -/
def treeGetPath : GTree → List String → Option GEntry
  | _, [] => none
  | t, [c] => treeLookup t c
  | t, c :: rest =>
    match treeLookup t c with
    | some (.sub t') => treeGetPath t' rest
    | _ => none

/-- The working tree: regular files (path components ↦ byte content) and
directories. -/
structure FS where
  files : List (List String × List Nat)
  dirs : List (List String)

/-- `std::fs::write`: creates or truncates the file, but never creates a
missing parent directory and cannot write over a directory.  `none` is the
`Err` of the Rust call. -/
def fsWrite (fs : FS) (k : List String) (c : List Nat) : Option FS :=
  if k = [] then none
  else if fs.dirs.contains k then none
  else if k.dropLast = [] ∨ fs.dirs.contains k.dropLast then
    some { files := updF fs.files k c, dirs := fs.dirs }
  else none

/-- The repository state visible to the embedded program: remotes
(name ↦ url), local branches and remote-tracking branches (name ↦ commit
id), upstream bindings, the branch HEAD is attached to, the index, the
working tree, and the object database (commit id ↦ root tree). -/
structure GitState where
  remotes : List (String × String)
  branches : List (String × Nat)
  remoteBranches : List (String × Nat)
  upstreams : List (String × String)
  head : String
  index : List (List String × List Nat)
  fs : FS
  commits : List (Nat × GTree)

/-- Result of one step of the program: success with the new state, a
propagated error (`?`) with the state at the moment of the error, or a
panic with the state at the moment of the panic. -/
inductive StepRes where
  | ok : GitState → StepRes
  | err : Err → GitState → StepRes
  | panic : GitState → StepRes

/-- The state carried by a step result. -/
def StepRes.state : StepRes → GitState
  | .ok s => s
  | .err _ s => s
  | .panic s => s

/-- Resolution of the parent branch tip: look up the remote-tracking branch
`Parent/<default-branch>` and peel it to its commit's tree. -/
def parentTree (env : Env) (s : GitState) : POut GTree :=
  match get_parent_default_branch env with
  | .panic => .panic
  | .err e => .err e
  | .ok b =>
    match lookupA s.remoteBranches ("Parent/" ++ b) with
    | none => .err .branchNotFound
    | some oid =>
      match lookupA s.commits oid with
      | none => .err .objectNotFound
      | some t => .ok t

/-- `restore_file_from_parent` (src/Source/Plan.rs:299-321): resolve the
parent default branch, peel `Parent/<branch>` to its tree, look the path up
in that tree (`tree.get_path`), require a blob (`as_blob().ok_or("Not a
blob")`), and `std::fs::write` the blob content to the working tree. -/
def restore_file_from_parent (env : Env) (p : RPath) (s : GitState) : StepRes :=
  match parentTree env s with
  | .panic => .panic s
  | .err e => .err e s
  | .ok t =>
    match treeGetPath t (gitComps p) with
    | none => .err .pathNotFound s
    | some (.sub _) => .err .notABlob s
    | some (.blob c) =>
      match fsWrite s.fs (osNorm p) c with
      | none => .err .ioWrite s
      | some fs' => .ok { s with fs := fs' }

/-- `git rev-parse` of a single revision string: local branches take
precedence over remote-tracking branches. -/
def revparseSingle (s : GitState) (rev : String) : Option Nat :=
  match lookupA s.branches rev with
  | some oid => some oid
  | none => lookupA s.remoteBranches rev

/-- `restore_from_source` (src/Source/Plan.rs:323-335): resolve the
revision expression, peel to a tree, look up the path, peel the entry to a
blob, write. -/
def restore_from_source (source : String) (p : RPath) (s : GitState) : StepRes :=
  match revparseSingle s source with
  | none => .err .objectNotFound s
  | some oid =>
    match lookupA s.commits oid with
    | none => .err .objectNotFound s
    | some t =>
      match treeGetPath t (gitComps p) with
      | none => .err .pathNotFound s
      | some (.sub _) => .err .notABlob s
      | some (.blob c) =>
        match fsWrite s.fs (osNorm p) c with
        | none => .err .ioWrite s
        | some fs' => .ok { s with fs := fs' }

/-- `restore_file` (src/Source/Plan.rs:337-349): peel HEAD to its tree,
look up the path, peel to a blob, write.  `repo.head()` fails when the
attached branch does not exist (unborn HEAD). -/
def restore_file (p : RPath) (s : GitState) : StepRes :=
  match lookupA s.branches s.head with
  | none => .err .unbornHead s
  | some oid =>
    match lookupA s.commits oid with
    | none => .err .objectNotFound s
    | some t =>
      match treeGetPath t (gitComps p) with
      | none => .err .pathNotFound s
      | some (.sub _) => .err .notABlob s
      | some (.blob c) =>
        match fsWrite s.fs (osNorm p) c with
        | none => .err .ioWrite s
        | some fs' => .ok { s with fs := fs' }

/-- The entries `walkdir::WalkDir::new(".")` yields for a working tree: the
root `.` itself, every directory and every regular file, each path prefixed
with the `.` root component (walkdir joins the root with each relative
path, so every yielded path begins with the `CurDir` component). -/
def walkPaths (fs : FS) : List RPath :=
  [Comp.curDir] ::
    (fs.dirs.map (fun d => Comp.curDir :: d.map Comp.normal) ++
     fs.files.map (fun f => Comp.curDir :: f.1.map Comp.normal))

/-- The filter of the sweep loops (src/Source/Plan.rs:98-101 and 114-117):
final component equals the swept filename, and the path does not
`starts_with` `node_modules` nor `.git` (component-wise, so a leading `./`
defeats both tests). -/
def sweepMatch (fname : String) (p : RPath) : Bool :=
  (fileName p == some fname) &&
    !(startsWithP p [Comp.normal "node_modules"]) &&
    !(startsWithP p [Comp.normal ".git"])

/-- The paths a sweep passes to the File Restorer, in traversal order. -/
def sweepTargets (fs : FS) (fname : String) : List RPath :=
  (walkPaths fs).filter (sweepMatch fname)

/-- The sweep loop body: restore each target from the parent tip, aborting
on the first propagated error (the `?` inside the `for` loop). -/
def sweepGo (env : Env) : List RPath → GitState → StepRes
  | [], s => .ok s
  | t :: ts, s =>
    match restore_file_from_parent env t s with
    | .ok s' => sweepGo env ts s'
    | .err e s' => .err e s'
    | .panic s' => .panic s'

/-- The generic sweep (both sweep functions of the source differ only in
the filename literal): resolve the parent default branch once (line 93/109,
result unused but failure propagates), then walk and restore. -/
def restore_matching_from_parent (env : Env) (fname : String) (s : GitState) :
    StepRes :=
  match get_parent_default_branch env with
  | .panic => .panic s
  | .err e => .err e s
  | .ok _ => sweepGo env (sweepTargets s.fs fname) s

/-- `restore_gitignore_from_parent` (src/Source/Plan.rs:92-106). -/
def restore_gitignore_from_parent (env : Env) (s : GitState) : StepRes :=
  restore_matching_from_parent env ".gitignore" s

/-- `restore_package_json_from_parent` (src/Source/Plan.rs:108-122). -/
def restore_package_json_from_parent (env : Env) (s : GitState) : StepRes :=
  restore_matching_from_parent env "package.json" s

/-- `add_remote` (src/Source/Plan.rs:258-262): `repo.remote` fails when a
remote with the name already exists. -/
def add_remote (name url : String) (s : GitState) : StepRes :=
  if containsK s.remotes name then .err .remoteExists s
  else .ok { s with remotes := s.remotes ++ [(name, url)] }

/-- `remove_remote` (src/Source/Plan.rs:264-268): `repo.remote_delete`
fails when no remote with the name exists. -/
def remove_remote (name : String) (s : GitState) : StepRes :=
  if containsK s.remotes name then
    .ok { s with remotes := eraseK s.remotes name }
  else .err .remoteNotFound s

/-- `set_remote_url` (src/Source/Plan.rs:270-274). -/
def set_remote_url (name url : String) (s : GitState) : StepRes :=
  if containsK s.remotes name then
    .ok { s with remotes := updF s.remotes name url }
  else .err .remoteNotFound s

/-- `set_upstream` (src/Source/Plan.rs:142-148): `find_branch` fails when
the local branch is absent; `Branch::set_upstream` fails when the named
upstream branch (here always a remote-tracking one) does not exist. -/
def set_upstream (localBranch upstream : String) (s : GitState) : StepRes :=
  if containsK s.branches localBranch then
    if containsK s.remoteBranches upstream then
      .ok { s with upstreams := updF s.upstreams localBranch upstream }
    else .err .branchNotFound s
  else .err .branchNotFound s

/-- `switch_branch` (src/Source/Plan.rs:357-361): `repo.set_head` to
`refs/heads/<branch>` retargets HEAD only — libgit2 performs no checkout,
and the branch is not required to exist (HEAD may become unborn). -/
def switch_branch (branch : String) (s : GitState) : StepRes :=
  .ok { s with head := branch }

/-- `create_and_switch_branch` (src/Source/Plan.rs:363-375): resolve HEAD
(fails when unborn), `find_commit` on its target, create the branch with
`force = false` (fails when it already exists, before any mutation), then
`set_head` to the new branch. -/
def create_and_switch_branch (branch : String) (s : GitState) : StepRes :=
  match lookupA s.branches s.head with
  | none => .err .unbornHead s
  | some oid =>
    match lookupA s.commits oid with
    | none => .err .objectNotFound s
    | some _ =>
      if containsK s.branches branch then .err .branchExists s
      else .ok { s with branches := s.branches ++ [(branch, oid)],
                        head := branch }

mutual

/-- Flatten a git tree entry into its blob paths (used by the hard-reset
checkout). -/
def flatE (pre : List String) : GEntry → List (List String × List Nat)
  | .blob c => [(pre, c)]
  | .sub es => flatL pre es

/-- Flatten a git tree into its blob paths. -/
def flatL (pre : List String) : List (String × GEntry) → List (List String × List Nat)
  | [] => []
  | (n, e) :: rest => flatE (pre ++ [n]) e ++ flatL pre rest

end

mutual

/-- Directory paths of a git tree entry. -/
def flatDirE (pre : List String) : GEntry → List (List String)
  | .blob _ => []
  | .sub es => pre :: flatDirL pre es

/-- Directory paths of a git tree. -/
def flatDirL (pre : List String) : List (String × GEntry) → List (List String)
  | [] => []
  | (n, e) :: rest => flatDirE (pre ++ [n]) e ++ flatDirL pre rest

end

/-- The working tree a hard reset to a commit leaves behind: exactly the
commit tree's blobs and directories. -/
def treeFS (t : GTree) : FS :=
  { files := flatL [] t, dirs := flatDirL [] t }

/-- `reset_hard_to_parent` (src/Source/Plan.rs:276-287): peel
`Parent/<default-branch>` to a commit and `git_reset --hard` to it, which
moves the branch HEAD is attached to onto that commit and resets both
index and working tree to its tree. -/
def reset_hard_to_parent (env : Env) (s : GitState) : StepRes :=
  match get_parent_default_branch env with
  | .panic => .panic s
  | .err e => .err e s
  | .ok b =>
    match lookupA s.remoteBranches ("Parent/" ++ b) with
    | none => .err .branchNotFound s
    | some oid =>
      match lookupA s.commits oid with
      | none => .err .objectNotFound s
      | some t =>
        .ok { s with branches := updF s.branches s.head oid,
                     index := flatL [] t,
                     fs := treeFS t }

/-- `reset_file` (src/Source/Plan.rs:289-297): drop the path from the
index. -/
def reset_file (p : List String) (s : GitState) : StepRes :=
  .ok { s with index := eraseK s.index p }

/-- `add_all` (src/Source/Plan.rs:132-140): stage every working-tree
path. -/
def add_all (s : GitState) : StepRes :=
  .ok { s with index := s.fs.files }

/-- One named pipeline step. -/
abbrev Step := GitState → StepRes

/-- Run a list of named steps in order, aborting on the first non-ok result
(the `?` chain of `main`).  Returns the final result together with the
names of the steps that were entered, in order. -/
def runSteps : List (String × Step) → GitState → StepRes × List String
  | [], s => (.ok s, [])
  | (n, f) :: rest, s =>
    match f s with
    | .ok s' =>
      let r := runSteps rest s'
      (r.1, n :: r.2)
    | .err e s' => (.err e s', [n])
    | .panic s' => (.panic s', [n])

/-- External outcomes of one run: the `gh` JSON responses, whether each
spawned subprocess could be started and what exit status it reported (the
source reads `.status()?`, so only a failed spawn is an error — the exit
status itself is ignored), whether each libgit2 network operation
succeeded, and the repository mutation each external process or library
merge performs (opaque to the embedded program). -/
structure World where
  env : Env
  ghSetDefaultSpawn : Bool
  ghSetDefaultExit : Int
  cleanSpawn : Bool
  cleanExit : Int
  unshallowSpawn : Bool
  unshallowExit : Int
  pullSpawn : Bool
  pullExit : Int
  submoduleSpawn : Bool
  submoduleExit : Int
  fetchParentOk : Bool
  fetchSourceOk : Bool
  mergeOk : Bool
  pushOk : Bool
  pushUpOk : Bool
  cleanEffect : GitState → GitState
  unshallowEffect : GitState → GitState
  pullEffect : GitState → GitState
  submoduleEffect : GitState → GitState
  fetchParentEffect : GitState → GitState
  fetchSourceEffect : GitState → GitState
  mergeEffect : GitState → GitState

/-- `set_default_repo` (src/Source/Plan.rs:124-130): `find_remote("Source")`
fails when the remote is absent; then `gh repo set-default` runs with
`.status()?` — only a failed spawn is an error, the exit status is
ignored, and the repository state is untouched. -/
def set_default_repo (w : World) (s : GitState) : StepRes :=
  if containsK s.remotes "Source" then
    if w.ghSetDefaultSpawn then .ok s else .err .ioSpawn s
  else .err .remoteNotFound s

/-- `clean` (src/Source/Plan.rs:150-154): `git clean -dfx` via
`.status()?` — spawn failure is the only error; the subprocess mutates the
repository externally. -/
def clean (w : World) (s : GitState) : StepRes :=
  if w.cleanSpawn then .ok (w.cleanEffect s) else .err .ioSpawn s

/-- `fetch_from_remote` (src/Source/Plan.rs:156-178): `find_remote` fails
when the remote is absent; the fetch of `main` either succeeds (updating
remote-tracking state, opaque here) or fails on network/auth. -/
def fetch_from_remote (w : World) (remoteName : String) (s : GitState) :
    StepRes :=
  if containsK s.remotes remoteName then
    if remoteName = "Parent" then
      if w.fetchParentOk then .ok (w.fetchParentEffect s) else .err .netFetch s
    else
      if w.fetchSourceOk then .ok (w.fetchSourceEffect s) else .err .netFetch s
  else .err .remoteNotFound s

/-- `fetch_unshallow` (src/Source/Plan.rs:180-184): `git fetch --unshallow`
via `.status()?` — spawn failure is the only error. -/
def fetch_unshallow (w : World) (s : GitState) : StepRes :=
  if w.unshallowSpawn then .ok (w.unshallowEffect s) else .err .ioSpawn s

/-- `merge_from_parent` (src/Source/Plan.rs:186-206): resolve the parent
default branch, peel `Parent/<branch>` to a commit (fails when absent),
resolve HEAD (fails when unborn), then `repo.merge` with unrelated
histories allowed (mutates index and working tree, opaque here). -/
def merge_from_parent (w : World) (s : GitState) : StepRes :=
  match get_parent_default_branch w.env with
  | .panic => .panic s
  | .err e => .err e s
  | .ok b =>
    match lookupA s.remoteBranches ("Parent/" ++ b) with
    | none => .err .branchNotFound s
    | some oid =>
      match lookupA s.commits oid with
      | none => .err .objectNotFound s
      | some _ =>
        match lookupA s.branches s.head with
        | none => .err .unbornHead s
        | some _ =>
          if w.mergeOk then .ok (w.mergeEffect s) else .err .mergeFail s

/-- `pull` (src/Source/Plan.rs:208-223): `git pull -X theirs` via
`.status()?` — spawn failure is the only error; a non-zero exit status of
`git pull` is ignored and the pipeline continues. -/
def pull (w : World) (s : GitState) : StepRes :=
  if w.pullSpawn then .ok (w.pullEffect s) else .err .ioSpawn s

/-- `push` (src/Source/Plan.rs:225-237): `find_remote` fails when absent;
the push itself fails on network/auth. -/
def push (w : World) (remoteName _refspec : String) (s : GitState) : StepRes :=
  if containsK s.remotes remoteName then
    if w.pushOk then .ok s else .err .netPush s
  else .err .remoteNotFound s

/-- The forced push inside `push_set_upstream` (distinct network
outcome). -/
def pushForced (w : World) (remoteName _refspec : String) (s : GitState) :
    StepRes :=
  if containsK s.remotes remoteName then
    if w.pushUpOk then .ok s else .err .netPush s
  else .err .remoteNotFound s

/-- `push_set_upstream` (src/Source/Plan.rs:239-256): push the forced
refspec, then bind the branch's upstream. -/
def push_set_upstream (w : World) (remoteName branch : String) (s : GitState) :
    StepRes :=
  match pushForced w remoteName
      ("+refs/heads/" ++ branch ++ ":refs/heads/" ++ branch) s with
  | .ok s' => set_upstream branch (remoteName ++ "/" ++ branch) s'
  | r => r

/-- `add_submodule` (src/Source/Plan.rs:351-355): `git submodule add` via
`.status()?` — spawn failure is the only error. -/
def add_submodule (w : World) (s : GitState) : StepRes :=
  if w.submoduleSpawn then .ok (w.submoduleEffect s) else .err .ioSpawn s

/-- The remote-bookkeeping segment of `main` (src/Source/Plan.rs:46-56), as
the named steps it chains with `?`. -/
def remoteSteps : List (String × Step) :=
  [("add_remote Parent", add_remote "Parent" "$Parent"),
   ("add_remote Source", add_remote "Source" "$Source"),
   ("remove_remote Parent", remove_remote "Parent"),
   ("remove_remote origin", remove_remote "origin"),
   ("set_remote_url Parent", set_remote_url "Parent" "$Parent"),
   ("set_remote_url Source", set_remote_url "Source" "$Source")]

/-- Run of the remote-bookkeeping segment. -/
def remoteBookkeeping (s : GitState) : StepRes × List String :=
  runSteps remoteSteps s

/-- The reset-and-restore segment of `main` (src/Source/Plan.rs:59-71), as
the named steps it chains with `?`. -/
def resetRestoreSteps (env : Env) : List (String × Step) :=
  [("reset_hard_to_parent", reset_hard_to_parent env),
   ("reset_file package.json", reset_file ["package.json"]),
   ("restore_file_from_parent package.json",
     restore_file_from_parent env [Comp.normal "package.json"]),
   ("restore_file_from_parent src",
     restore_file_from_parent env [Comp.normal "src"]),
   ("restore_file_from_parent tsconfig.json",
     restore_file_from_parent env [Comp.normal "tsconfig.json"]),
   ("restore_from_source Source/Current package.json",
     restore_from_source "Source/Current" [Comp.normal "package.json"]),
   ("restore_file package.json", restore_file [Comp.normal "package.json"])]

/-- Run of the reset-and-restore segment. -/
def resetRestoreSegment (env : Env) (s : GitState) : StepRes × List String :=
  runSteps (resetRestoreSteps env) s

/-- The branch-bookkeeping segment of `main` (src/Source/Plan.rs:77-87). -/
def branchSteps : List (String × Step) :=
  [("switch_branch $Branch", switch_branch "$Branch"),
   ("create_and_switch_branch $Branch", create_and_switch_branch "$Branch"),
   ("create_and_switch_branch Current", create_and_switch_branch "Current"),
   ("create_and_switch_branch Previous", create_and_switch_branch "Previous"),
   ("switch_branch Current", switch_branch "Current"),
   ("switch_branch Previous", switch_branch "Previous")]

/-- The full ordered step list of `main` (src/Source/Plan.rs:5-90). -/
def mainSteps (w : World) : List (String × Step) :=
  [("restore_gitignore_from_parent", restore_gitignore_from_parent w.env),
   ("restore_package_json_from_parent", restore_package_json_from_parent w.env),
   ("set_default_repo", set_default_repo w),
   ("add_all", add_all),
   ("set_upstream Current", set_upstream "Current" "Source/Current"),
   ("set_upstream Previous", set_upstream "Previous" "Source/Previous"),
   ("clean", clean w),
   ("fetch_from_remote Parent", fetch_from_remote w "Parent"),
   ("fetch_from_remote Source", fetch_from_remote w "Source"),
   ("fetch_unshallow Parent", fetch_unshallow w),
   ("merge_from_parent", merge_from_parent w),
   ("pull", pull w),
   ("push Source HEAD", push w "Source" "HEAD"),
   ("push_set_upstream Source Branch", push_set_upstream w "Source" "Branch")]
  ++ remoteSteps
  ++ resetRestoreSteps w.env
  ++ [("add_submodule", add_submodule w)]
  ++ branchSteps

/-- The names of `main`'s steps, in order. -/
def mainStepNames : List String :=
  ["restore_gitignore_from_parent",
   "restore_package_json_from_parent",
   "set_default_repo",
   "add_all",
   "set_upstream Current",
   "set_upstream Previous",
   "clean",
   "fetch_from_remote Parent",
   "fetch_from_remote Source",
   "fetch_unshallow Parent",
   "merge_from_parent",
   "pull",
   "push Source HEAD",
   "push_set_upstream Source Branch",
   "add_remote Parent",
   "add_remote Source",
   "remove_remote Parent",
   "remove_remote origin",
   "set_remote_url Parent",
   "set_remote_url Source",
   "reset_hard_to_parent",
   "reset_file package.json",
   "restore_file_from_parent package.json",
   "restore_file_from_parent src",
   "restore_file_from_parent tsconfig.json",
   "restore_from_source Source/Current package.json",
   "restore_file package.json",
   "add_submodule",
   "switch_branch $Branch",
   "create_and_switch_branch $Branch",
   "create_and_switch_branch Current",
   "create_and_switch_branch Previous",
   "switch_branch Current",
   "switch_branch Previous"]

/-- `main` (src/Source/Plan.rs:5-90): run every step in order, abort on the
first propagated error. -/
def mainRun (w : World) (s : GitState) : StepRes × List String :=
  runSteps (mainSteps w) s


/-- Whether a step result is a propagated error. -/
def StepRes.isErr : StepRes → Bool
  | .err _ _ => true
  | _ => false

/-- The HEAD tree of a state: the tree of the commit the branch HEAD is
attached to points at. -/
def headTreeOf (s : GitState) : Option GTree :=
  (lookupA s.branches s.head).bind (lookupA s.commits)

/-- Content of a blob entry. -/
def blobContent : Option GEntry → Option (List Nat)
  | some (.blob c) => some c
  | _ => none

/-- A well-formed `gh repo view --json parent` response. -/
def pOK : JValue :=
  .obj [("parent", .obj [("owner", .obj [("login", .str "octo")]),
                         ("name", .str "up")])]

/-- A well-formed `defaultBranchRef` response naming branch `main`. -/
def bOK : JValue :=
  .obj [("defaultBranchRef", .obj [("name", .str "main")])]

/-- Environment in which both platform queries succeed and are
well-formed. -/
def env0 : Env := { ghParent := some pOK, ghBranch := some bOK }

/-- Environment whose first response is well-formed JSON but reports no
registered parent repository (`gh` prints `{"parent": null}`). -/
def envNoParent : Env :=
  { ghParent := some (.obj [("parent", .null)]), ghBranch := some bOK }

/-- A working tree holding `.gitignore` files under `node_modules/pkg`,
under `.git/hooks`, and under an ordinary directory `a`. -/
def c2fs : FS :=
  { files := [(["node_modules", "pkg", ".gitignore"], [1]),
              ([".git", "hooks", ".gitignore"], [2]),
              (["a", ".gitignore"], [3])],
    dirs := [["node_modules"], ["node_modules", "pkg"],
             [".git"], [".git", "hooks"], ["a"]] }

/-- An empty base repository state. -/
def s0 : GitState :=
  { remotes := [], branches := [], remoteBranches := [], upstreams := [],
    head := "B", index := [], fs := { files := [], dirs := [] },
    commits := [] }

/-- Witness state for branch creation: HEAD branch `B` at commit 1, a
bookkeeping branch `Current` already present. -/
def c10s : GitState :=
  { s0 with branches := [("B", 1), ("Current", 1)], commits := [(1, [])] }

/-- The error a step result propagates, when it is an error. -/
def StepRes.errCode : StepRes → Option Err
  | .err e _ => some e
  | _ => none

/-- State whose parent tip holds the blob `a/b` while the working tree has
no directory `a`. -/
def c6s : GitState :=
  { s0 with remoteBranches := [("Parent/main", 2)],
            commits := [(2, [("a", GEntry.sub [("b", GEntry.blob [7])])])] }

/-- Same state with the directory `a` present on disk. -/
def c6sOK : GitState :=
  { c6s with fs := { files := [], dirs := [["a"]] } }

/-- A tree with the directory `d` containing the blob `d/f`. -/
def t7 : GTree := [("d", GEntry.sub [("f", GEntry.blob [1])])]

/-- State for the not-found / not-a-blob witness: HEAD branch `B` on
commit 3, parent tip and `Source/Current` on commit 2, both trees
`t7`. -/
def c7s : GitState :=
  { s0 with branches := [("B", 3)],
            remoteBranches := [("Parent/main", 2), ("Source/Current", 2)],
            commits := [(2, t7), (3, t7)] }

/-- The parent tip tree used by the reset-and-restore witness (all three
restored paths are blobs). -/
def ptC3 : GTree :=
  [("package.json", GEntry.blob [10]), ("src", GEntry.blob [11]),
   ("tsconfig.json", GEntry.blob [12])]

/-- The `Source/Current` tree of the witness, holding a different
`package.json`. -/
def stC3 : GTree := [("package.json", GEntry.blob [20])]

/-- The witness state for the reset-and-restore segment: HEAD branch `B`
on commit 1, parent tip on commit 2 (`ptC3`), `Source/Current` on commit 3
(`stC3`). -/
def c3s : GitState :=
  { s0 with branches := [("B", 1)],
            remoteBranches := [("Parent/main", 2), ("Source/Current", 3)],
            commits := [(1, []), (2, ptC3), (3, stC3)] }

/-- A world in which every subprocess spawns and every network operation
succeeds, every external effect is the identity, and the `git pull`
subprocess exits with status 5 — a failed pull whose exit status the
source ignores. -/
def w4 : World :=
  { env := env0,
    ghSetDefaultSpawn := true, ghSetDefaultExit := 0,
    cleanSpawn := true, cleanExit := 0,
    unshallowSpawn := true, unshallowExit := 0,
    pullSpawn := true, pullExit := 5,
    submoduleSpawn := true, submoduleExit := 0,
    fetchParentOk := true, fetchSourceOk := true,
    mergeOk := true, pushOk := true, pushUpOk := true,
    cleanEffect := id, unshallowEffect := id, pullEffect := id,
    submoduleEffect := id, fetchParentEffect := id, fetchSourceEffect := id,
    mergeEffect := id }

/-- A state in which the first fourteen steps of `main` all succeed:
`Parent` and `Source` remotes present, the bookkeeping branches and their
remote-tracking branches present, HEAD on `Current`. -/
def s4 : GitState :=
  { s0 with remotes := [("Parent", "p"), ("Source", "u")],
            branches := [("Current", 1), ("Previous", 1), ("Branch", 1)],
            head := "Current",
            remoteBranches := [("Source/Current", 1), ("Source/Previous", 1),
                               ("Source/Branch", 1), ("Parent/main", 2)],
            commits := [(1, []), (2, [])] }

/-- The abstract outcome of one parent-sourced restore: a panic, an
error, or a write of given content at a given OS path — everything the
restore does, as a function of the parts of the state it reads (platform
responses, remote-tracking branches, object database, directory set). -/
inductive RCore where
  | rpanic : RCore
  | rerr : Err → RCore
  | rwrite : List String → List Nat → RCore

/-- `restore_file_from_parent` as a function of what it reads; its effect
on the state is recovered by `restore_file_from_parent_spec`. -/
def restoreCore (env : Env) (rb : List (String × Nat))
    (cm : List (Nat × GTree)) (dirs : List (List String)) (p : RPath) :
    RCore :=
  match get_parent_default_branch env with
  | .panic => .rpanic
  | .err e => .rerr e
  | .ok b =>
    match lookupA rb ("Parent/" ++ b) with
    | none => .rerr .branchNotFound
    | some oid =>
      match lookupA cm oid with
      | none => .rerr .objectNotFound
      | some t =>
        match treeGetPath t (gitComps p) with
        | none => .rerr .pathNotFound
        | some (.sub _) => .rerr .notABlob
        | some (.blob c) =>
          if osNorm p = [] then .rerr .ioWrite
          else if dirs.contains (osNorm p) then .rerr .ioWrite
          else if (osNorm p).dropLast = [] ∨ dirs.contains (osNorm p).dropLast
          then .rwrite (osNorm p) c
          else .rerr .ioWrite

/-- Well-formedness of a working tree as an actual filesystem snapshot
provides it: file paths and directory paths are duplicate-free and
disjoint, and the root is neither a file nor a directory entry. -/
def FS.WF (fs : FS) : Prop :=
  (fs.files.map Prod.fst).Nodup ∧ fs.dirs.Nodup ∧
  (∀ k ∈ fs.files.map Prod.fst, k ∉ fs.dirs) ∧
  [] ∉ fs.dirs ∧ [] ∉ fs.files.map Prod.fst

/-- Witness state for sweep idempotence: the `c2fs` working tree. -/
def s8 : GitState := { s0 with fs := c2fs }

instance (fs : FS) : Decidable (FS.WF fs) := by
  unfold FS.WF
  infer_instance

theorem lookupA_append_left {α β : Type} [DecidableEq α] {l₁ : List (α × β)}
    {k : α} {v : β} (l₂ : List (α × β)) (h : lookupA l₁ k = some v) :
    lookupA (l₁ ++ l₂) k = some v := by
  induction l₁ with
  | nil => simp [lookupA] at h
  | cons p rest ih =>
    by_cases hp : p.1 = k
    · simp only [lookupA, if_pos hp] at h ⊢
      simpa using h
    · simp only [lookupA, if_neg hp] at h ⊢
      simpa using ih h

theorem lookupA_append_right {α β : Type} [DecidableEq α] {l₁ : List (α × β)}
    {k : α} (l₂ : List (α × β)) (h : lookupA l₁ k = none) :
    lookupA (l₁ ++ l₂) k = lookupA l₂ k := by
  induction l₁ with
  | nil => simp
  | cons p rest ih =>
    by_cases hp : p.1 = k
    · simp [lookupA, if_pos hp] at h
    · simp only [lookupA, if_neg hp] at h
      simp only [List.cons_append, lookupA, if_neg hp]
      exact ih h

theorem lookupA_eq_none_iff {α β : Type} [DecidableEq α] (l : List (α × β))
    (k : α) : lookupA l k = none ↔ k ∉ l.map Prod.fst := by
  induction l with
  | nil => simp [lookupA]
  | cons p rest ih =>
    by_cases h : p.1 = k
    · simp [lookupA, if_pos h, h]
    · simp [lookupA, if_neg h, ih, Ne.symm h]

theorem containsK_false_iff {α β : Type} [DecidableEq α] (l : List (α × β))
    (k : α) : containsK l k = false ↔ k ∉ l.map Prod.fst := by
  rw [← lookupA_eq_none_iff]
  unfold containsK
  cases lookupA l k <;> simp

theorem containsK_true_iff {α β : Type} [DecidableEq α] (l : List (α × β))
    (k : α) : containsK l k = true ↔ k ∈ l.map Prod.fst := by
  rw [← Bool.not_eq_false, containsK_false_iff, not_not]

theorem updF_of_contains {α β : Type} [DecidableEq α] {l : List (α × β)}
    {k : α} (v : β) (h : containsK l k = true) :
    updF l k v = l.map (fun p => if p.1 = k then (k, v) else p) := by
  unfold updF
  rw [h, if_pos rfl]

theorem updF_of_not_contains {α β : Type} [DecidableEq α] {l : List (α × β)}
    {k : α} (v : β) (h : containsK l k = false) :
    updF l k v = l ++ [(k, v)] := by
  unfold updF
  rw [h, if_neg Bool.false_ne_true]

theorem lookupA_none_of_not_contains {α β : Type} [DecidableEq α]
    {l : List (α × β)} {k : α} (h : containsK l k = false) :
    lookupA l k = none := by
  unfold containsK at h
  cases hl : lookupA l k
  · rfl
  · rw [hl] at h
    simp at h

theorem lookupA_updF_self {α β : Type} [DecidableEq α] (l : List (α × β))
    (k : α) (v : β) : lookupA (updF l k v) k = some v := by
  cases h : containsK l k
  · rw [updF_of_not_contains v h,
      lookupA_append_right _ (lookupA_none_of_not_contains h)]
    simp [lookupA]
  · rw [updF_of_contains v h]
    unfold containsK at h
    induction l with
    | nil => simp [lookupA] at h
    | cons p rest ih =>
      by_cases hp : p.1 = k
      · simp [lookupA, hp]
      · simp only [lookupA, if_neg hp] at h
        simp only [List.map_cons, if_neg hp, lookupA, if_neg hp]
        exact ih h

theorem lookupA_updF_ne {α β : Type} [DecidableEq α] (l : List (α × β))
    (k k' : α) (v : β) (hne : k' ≠ k) :
    lookupA (updF l k v) k' = lookupA l k' := by
  cases h : containsK l k
  · rw [updF_of_not_contains v h]
    cases hl : lookupA l k' with
    | some v' => exact lookupA_append_left _ hl
    | none =>
      rw [lookupA_append_right _ hl]
      simp only [lookupA]
      rw [if_neg (fun h' : k = k' => hne h'.symm)]
  · rw [updF_of_contains v h]
    clear h
    induction l with
    | nil => simp
    | cons p rest ih =>
      by_cases hp : p.1 = k
      · rw [List.map_cons, if_pos hp]
        simp only [lookupA]
        rw [if_neg (show ¬(k, v).1 = k' from fun h' => hne h'.symm),
          if_neg (show ¬p.1 = k' from hp ▸ fun h' => hne h'.symm)]
        exact ih
      · rw [List.map_cons, if_neg hp]
        simp only [lookupA]
        by_cases hp' : p.1 = k'
        · rw [if_pos hp', if_pos hp']
        · rw [if_neg hp', if_neg hp']
          exact ih

theorem map_replace_eq_of_not_mem {α β : Type} [DecidableEq α]
    (l : List (α × β)) (k : α) (v : β) (h : k ∉ l.map Prod.fst) :
    l.map (fun p => if p.1 = k then (k, v) else p) = l := by
  induction l with
  | nil => rfl
  | cons p rest ih =>
    simp only [List.map_cons, List.mem_cons, not_or] at h
    rw [List.map_cons, if_neg (fun h' => h.1 (h'.symm)), ih h.2]

theorem updF_eq_of_lookup {α β : Type} [DecidableEq α] (l : List (α × β))
    (k : α) (v : β) (hnd : (l.map Prod.fst).Nodup)
    (h : lookupA l k = some v) : updF l k v = l := by
  have hc : containsK l k = true := by simp [containsK, h]
  rw [updF_of_contains v hc]
  clear hc
  induction l with
  | nil => simp [lookupA] at h
  | cons p rest ih =>
    simp only [List.map_cons, List.nodup_cons] at hnd
    by_cases hp : p.1 = k
    · simp only [lookupA, if_pos hp, Option.some.injEq] at h
      rw [List.map_cons, if_pos hp, map_replace_eq_of_not_mem rest k v
        (hp ▸ hnd.1)]
      have : (k, v) = p := by
        rw [← hp, ← h]
      rw [this]
    · simp only [lookupA, if_neg hp] at h
      rw [List.map_cons, if_neg hp, ih hnd.2 h]

theorem keys_updF_of_contains {α β : Type} [DecidableEq α] (l : List (α × β))
    (k : α) (v : β) (h : containsK l k = true) :
    (updF l k v).map Prod.fst = l.map Prod.fst := by
  rw [updF_of_contains v h, List.map_map]
  apply List.map_congr_left
  intro p _
  by_cases hp : p.1 = k <;> simp [hp]

theorem nodup_keys_updF {α β : Type} [DecidableEq α] (l : List (α × β))
    (k : α) (v : β) (hnd : (l.map Prod.fst).Nodup) :
    ((updF l k v).map Prod.fst).Nodup := by
  cases h : containsK l k
  · rw [updF_of_not_contains v h, List.map_append]
    rw [containsK_false_iff] at h
    simp [List.Nodup.append, hnd, h, List.disjoint_singleton]
  · rw [keys_updF_of_contains l k v h]
    exact hnd

theorem lookupA_eraseK_ne {α β : Type} [DecidableEq α] (l : List (α × β))
    (k k' : α) (hne : k' ≠ k) : lookupA (eraseK l k) k' = lookupA l k' := by
  induction l with
  | nil => rfl
  | cons p rest ih =>
    unfold eraseK at ih ⊢
    rw [List.filter_cons]
    by_cases hp : p.1 = k
    · rw [if_neg (by simp [hp])]
      rw [ih]
      simp only [lookupA]
      rw [if_neg (show ¬p.1 = k' from hp ▸ fun h' => hne h'.symm)]
    · rw [if_pos (by simp [hp])]
      simp only [lookupA]
      by_cases hp' : p.1 = k'
      · rw [if_pos hp', if_pos hp']
      · rw [if_neg hp', if_neg hp', ih]

/-- C5, counterexample: on the well-formed platform response
`{"parent": null}` — a repository with no registered parent —
`get_parent_default_branch` panics (`as_str().unwrap()` on a missing
field) instead of returning a `PlatformQueryError`, so the claim that it
returns an error for every response lacking the expected fields is false
at this input. -/
theorem c5_counterexample : get_parent_default_branch envNoParent = .panic :=
  rfl

/-- C5 as amended: `get_parent_default_branch` returns
`PlatformQueryError` when a query's output cannot be parsed as JSON at
all; but when the response is well-formed JSON that lacks the expected
fields (in particular when no parent repository is registered) it panics
via `Option::unwrap` rather than returning an error; on a fully
well-formed pair of responses it returns the parent's default branch
name. -/
theorem c5_amended (env : Env) :
    (env.ghParent = none →
      get_parent_default_branch env = .err .platformQuery) ∧
    (∀ v ow nm, env.ghParent = some v →
      jAsStr (jGet (jGet (jGet v "parent") "owner") "login") = some ow →
      jAsStr (jGet (jGet v "parent") "name") = some nm →
      env.ghBranch = none →
      get_parent_default_branch env = .err .platformQuery) ∧
    (∀ v, env.ghParent = some v →
      jAsStr (jGet (jGet (jGet v "parent") "owner") "login") = none →
      get_parent_default_branch env = .panic) ∧
    (∀ v w ow nm b, env.ghParent = some v → env.ghBranch = some w →
      jAsStr (jGet (jGet (jGet v "parent") "owner") "login") = some ow →
      jAsStr (jGet (jGet v "parent") "name") = some nm →
      jAsStr (jGet (jGet w "defaultBranchRef") "name") = some b →
      get_parent_default_branch env = .ok b) := by
  refine ⟨?_, ?_, ?_, ?_⟩
  · intro h
    simp [get_parent_default_branch, h]
  · intro v ow nm hv h1 h2 hb
    simp [get_parent_default_branch, hv, h1, h2, hb]
  · intro v hv h1
    simp [get_parent_default_branch, hv, h1]
  · intro v w ow nm b hv hw h1 h2 h3
    simp [get_parent_default_branch, hv, hw, h1, h2, h3]

/-- C5 witness: the amended theorem applied at concrete inputs — an
unparseable first response, a well-formed first response with an
unparseable second one, a response lacking the owner login, and the fully
well-formed pair. -/
theorem c5_amended_witness :
    get_parent_default_branch { ghParent := none, ghBranch := none } =
      .err .platformQuery ∧
    get_parent_default_branch { ghParent := some pOK, ghBranch := none } =
      .err .platformQuery ∧
    get_parent_default_branch
      { ghParent := some (.obj [("parent", .null)]), ghBranch := none } =
      .panic ∧
    get_parent_default_branch env0 = .ok "main" :=
  ⟨(c5_amended _).1 rfl,
   (c5_amended _).2.1 pOK "octo" "up" rfl rfl rfl rfl,
   (c5_amended _).2.2.1 (.obj [("parent", .null)]) rfl rfl,
   (c5_amended _).2.2.2 pOK bOK "octo" "up" "main" rfl rfl rfl rfl rfl⟩

/-- C2: on a working tree holding `node_modules/pkg/.gitignore` and
`.git/hooks/.gitignore`, the Override Sweeper targets both paths (walkdir
yields them with a leading `./` component, against which the
component-wise `Path::starts_with("node_modules")` / `starts_with(".git")`
tests are always false), so both ARE passed to the File Restorer,
contradicting the claim; the third conjunct shows the filter would have
excluded the path had it not carried the `./` prefix, i.e. the exclusion
written in the source is dead code. -/
theorem c2_sweep_targets_excluded_roots :
    (Comp.curDir :: [Comp.normal "node_modules", Comp.normal "pkg",
        Comp.normal ".gitignore"]) ∈ sweepTargets c2fs ".gitignore" ∧
    (Comp.curDir :: [Comp.normal ".git", Comp.normal "hooks",
        Comp.normal ".gitignore"]) ∈ sweepTargets c2fs ".gitignore" ∧
    (Comp.curDir :: [Comp.normal "a", Comp.normal ".gitignore"]) ∈
      sweepTargets c2fs ".gitignore" ∧
    startsWithP [Comp.normal "node_modules", Comp.normal "pkg",
        Comp.normal ".gitignore"] [Comp.normal "node_modules"] = true ∧
    startsWithP (Comp.curDir :: [Comp.normal "node_modules",
        Comp.normal "pkg", Comp.normal ".gitignore"])
        [Comp.normal "node_modules"] = false := by
  decide

/-- C9: `switch_branch` always succeeds and retargets only HEAD: the
resulting state's HEAD is the requested branch while the working tree,
the index, all branches (local and remote-tracking), remotes, upstream
bindings and the object database are unchanged — no checkout of the
target branch's tree is performed. -/
theorem c9_switch_branch_frame (s : GitState) (b : String) :
    switch_branch b s = .ok { s with head := b } ∧
    (switch_branch b s).state.head = b ∧
    (switch_branch b s).state.fs = s.fs ∧
    (switch_branch b s).state.index = s.index ∧
    (switch_branch b s).state.branches = s.branches ∧
    (switch_branch b s).state.remoteBranches = s.remoteBranches ∧
    (switch_branch b s).state.remotes = s.remotes ∧
    (switch_branch b s).state.upstreams = s.upstreams ∧
    (switch_branch b s).state.commits = s.commits :=
  ⟨rfl, rfl, rfl, rfl, rfl, rfl, rfl, rfl, rfl⟩

/-- C10: `create_and_switch_branch` is non-forcing: when HEAD resolves to
a commit and a local branch with the requested name already exists, it
returns an error (branch creation with `force = false` fails before any
mutation) and the returned state is the input state unchanged; when the
branch does not exist it succeeds, the new branch points at the commit
HEAD pointed at, and HEAD is then attached to the new branch. -/
theorem c10_create_and_switch (s : GitState) (b : String) (oid : Nat)
    (t : GTree) (hhead : lookupA s.branches s.head = some oid)
    (hcommit : lookupA s.commits oid = some t) :
    (containsK s.branches b = true →
      create_and_switch_branch b s = .err .branchExists s) ∧
    (containsK s.branches b = false →
      create_and_switch_branch b s =
        .ok { s with branches := s.branches ++ [(b, oid)], head := b } ∧
      lookupA (s.branches ++ [(b, oid)]) b = some oid) := by
  constructor
  · intro h
    simp [create_and_switch_branch, hhead, hcommit, h]
  · intro h
    constructor
    · simp [create_and_switch_branch, hhead, hcommit, h]
    · rw [lookupA_append_right _ (lookupA_none_of_not_contains h)]
      simp [lookupA]

/-- C10 witness: a state whose HEAD branch `B` points at commit 1; creating
the already-existing branch `Current` fails with the state unchanged, and
creating the fresh branch `New` succeeds with `New ↦ 1` and HEAD on
`New`. -/
theorem c10_create_and_switch_witness :
    create_and_switch_branch "Current" c10s = .err .branchExists c10s ∧
    create_and_switch_branch "New" c10s =
      .ok { c10s with branches := [("B", 1), ("Current", 1), ("New", 1)],
                      head := "New" } :=
  ⟨(c10_create_and_switch c10s "Current" 1 [] rfl rfl).1 rfl,
   ((c10_create_and_switch c10s "New" 1 [] rfl rfl).2 rfl).1⟩

/-- C1, counterexample: starting from a repository with no remotes at all
(so that the two `add_remote` steps succeed and no remote named `origin`
exists), the remote-bookkeeping segment of `main` aborts at
`remove_remote origin` with `RemoteNotFoundError` — the `?` operator
propagates the not-found outcome instead of treating it as success — and
the subsequent `set_remote_url` steps never run, so the claim that the
pipeline does not abort is false at this input. -/
theorem c1_counterexample :
    (remoteBookkeeping s0).1.isErr = true ∧
    (remoteBookkeeping s0).1.errCode = some .remoteNotFound ∧
    (remoteBookkeeping s0).2 =
      ["add_remote Parent", "add_remote Source", "remove_remote Parent",
       "remove_remote origin"] ∧
    "set_remote_url Parent" ∉ (remoteBookkeeping s0).2 ∧
    "set_remote_url Source" ∉ (remoteBookkeeping s0).2 := by
  decide

/-- C1 as amended: when no remote named `origin` exists (and `Parent` /
`Source` do not pre-exist either, so the preceding bookkeeping steps
succeed), `remove_remote("origin")` fails with `RemoteNotFoundError` and
the orchestrator propagates the error with `?`: the pipeline aborts and
the subsequent `set_remote_url` steps do not run — the not-found outcome
is NOT treated as success at the orchestrator level. -/
theorem c1_amended (s : GitState)
    (hP : containsK s.remotes "Parent" = false)
    (hS : containsK s.remotes "Source" = false)
    (hO : containsK s.remotes "origin" = false) :
    (remoteBookkeeping s).1 = .err .remoteNotFound
      { s with remotes := eraseK (s.remotes ++
          [("Parent", "$Parent"), ("Source", "$Source")]) "Parent" } ∧
    (remoteBookkeeping s).2 =
      ["add_remote Parent", "add_remote Source", "remove_remote Parent",
       "remove_remote origin"] ∧
    "set_remote_url Parent" ∉ (remoteBookkeeping s).2 ∧
    "set_remote_url Source" ∉ (remoteBookkeeping s).2 := by
  have l0 : lookupA s.remotes "Parent" = none := lookupA_none_of_not_contains hP
  have l1 : lookupA s.remotes "Source" = none := lookupA_none_of_not_contains hS
  have l2 : lookupA s.remotes "origin" = none := lookupA_none_of_not_contains hO
  have hS1 : containsK (s.remotes ++ [("Parent", "$Parent")]) "Source" =
      false := by
    unfold containsK
    rw [lookupA_append_right _ l1]
    decide
  have hP2 : containsK (s.remotes ++
      [("Parent", "$Parent"), ("Source", "$Source")]) "Parent" = true := by
    unfold containsK
    rw [lookupA_append_right _ l0]
    decide
  have hO3 : containsK (eraseK (s.remotes ++
      [("Parent", "$Parent"), ("Source", "$Source")]) "Parent") "origin" =
      false := by
    unfold containsK
    rw [lookupA_eraseK_ne _ _ _ (by decide), lookupA_append_right _ l2]
    decide
  have hmain : remoteBookkeeping s = (.err .remoteNotFound
      { s with remotes := eraseK (s.remotes ++
          [("Parent", "$Parent"), ("Source", "$Source")]) "Parent" },
      ["add_remote Parent", "add_remote Source", "remove_remote Parent",
       "remove_remote origin"]) := by
    simp [remoteBookkeeping, remoteSteps, runSteps, add_remote, remove_remote,
      hP, hS1, hP2, hO3]
  have h2 : (remoteBookkeeping s).2 =
      ["add_remote Parent", "add_remote Source", "remove_remote Parent",
       "remove_remote origin"] := by
    rw [hmain]
  refine ⟨by rw [hmain], h2, ?_, ?_⟩
  · rw [h2]
    decide
  · rw [h2]
    decide

/-- C1 witness: the amended theorem applied at the empty repository
state. -/
theorem c1_amended_witness :
    (remoteBookkeeping s0).1 = .err .remoteNotFound
      { s0 with remotes := eraseK (s0.remotes ++
          [("Parent", "$Parent"), ("Source", "$Source")]) "Parent" } ∧
    (remoteBookkeeping s0).2 =
      ["add_remote Parent", "add_remote Source", "remove_remote Parent",
       "remove_remote origin"] ∧
    "set_remote_url Parent" ∉ (remoteBookkeeping s0).2 ∧
    "set_remote_url Source" ∉ (remoteBookkeeping s0).2 :=
  c1_amended s0 rfl rfl rfl

theorem fsWrite_eq_some {fs : FS} {k : List String} {c : List Nat} {fs' : FS}
    (h : fsWrite fs k c = some fs') :
    fs' = { files := updF fs.files k c, dirs := fs.dirs } := by
  unfold fsWrite at h
  by_cases h1 : k = []
  · rw [if_pos h1] at h
    exact absurd h (by simp)
  · rw [if_neg h1] at h
    by_cases h2 : fs.dirs.contains k
    · rw [if_pos h2] at h
      exact absurd h (by simp)
    · rw [if_neg h2] at h
      by_cases h3 : k.dropLast = [] ∨ fs.dirs.contains k.dropLast
      · rw [if_pos h3] at h
        exact (Option.some.injEq _ _ ▸ h).symm
      · rw [if_neg h3] at h
        exact absurd h (by simp)

/-- C6, counterexample: in a state whose parent tip resolves `a/b` to a
blob while the working tree lacks the directory `a`, the restore fails
with `IoWriteError` — `std::fs::write` does not create missing parent
directories — although the claim requires the blob to be written with
parent directories created as needed. -/
theorem c6_counterexample :
    treeGetPath [("a", GEntry.sub [("b", GEntry.blob [7])])]
      (gitComps [Comp.normal "a", Comp.normal "b"]) =
      some (GEntry.blob [7]) ∧
    restore_file_from_parent env0 [Comp.normal "a", Comp.normal "b"] c6s =
      .err .ioWrite c6s :=
  ⟨rfl, rfl⟩

/-- C6 as amended: when the path resolves to a blob in the parent tip's
tree, `restore_file_from_parent` writes exactly that blob's byte content
to the working-tree file at the same (OS-normalized) relative path and
changes nothing else — provided the filesystem write succeeds, which
requires the file's parent directory to already exist (no missing parent
directory is created); when the write fails (in particular because the
parent directory is missing) the restore fails with `IoWriteError` and
the state is unchanged. -/
theorem c6_amended (env : Env) (s : GitState) (p : RPath) (t : GTree)
    (c : List Nat) (hpt : parentTree env s = .ok t)
    (hblob : treeGetPath t (gitComps p) = some (.blob c)) :
    (∀ fs', fsWrite s.fs (osNorm p) c = some fs' →
      restore_file_from_parent env p s = .ok { s with fs := fs' } ∧
      fs'.dirs = s.fs.dirs ∧
      fs'.files = updF s.fs.files (osNorm p) c ∧
      lookupA fs'.files (osNorm p) = some c) ∧
    (fsWrite s.fs (osNorm p) c = none →
      restore_file_from_parent env p s = .err .ioWrite s) := by
  constructor
  · intro fs' hw
    have hfs' := fsWrite_eq_some hw
    refine ⟨?_, ?_, ?_, ?_⟩
    · simp [restore_file_from_parent, hpt, hblob, hw]
    · rw [hfs']
    · rw [hfs']
    · rw [hfs']
      exact lookupA_updF_self _ _ _
  · intro hw
    simp [restore_file_from_parent, hpt, hblob, hw]

/-- C6 witness: the amended theorem applied with the directory `a` present
(the write succeeds and stores the blob content) and absent (the write
fails with `IoWriteError`). -/
theorem c6_amended_witness :
    restore_file_from_parent env0 [Comp.normal "a", Comp.normal "b"] c6sOK =
      .ok { c6sOK with
              fs := { files := [(["a", "b"], [7])], dirs := [["a"]] } } ∧
    restore_file_from_parent env0 [Comp.normal "a", Comp.normal "b"] c6s =
      .err .ioWrite c6s :=
  ⟨((c6_amended env0 c6sOK [Comp.normal "a", Comp.normal "b"]
      [("a", GEntry.sub [("b", GEntry.blob [7])])] [7] rfl rfl).1
      { files := [(["a", "b"], [7])], dirs := [["a"]] } rfl).1,
   (c6_amended env0 c6s [Comp.normal "a", Comp.normal "b"]
      [("a", GEntry.sub [("b", GEntry.blob [7])])] [7] rfl rfl).2 rfl⟩

/-- C7: for every ref and path, when the path is absent from the resolved
tree each restore variant fails with `PathNotFoundError`, and when it
resolves to a directory (subtree) each fails with the not-a-regular-file
error (`Not a blob` / `peel_to_blob` failure), in both cases returning the
input state unchanged — nothing is written to the working tree; this
holds for the parent-sourced, revision-sourced and HEAD-sourced
variants. -/
theorem c7_not_found_not_blob (env : Env) (s : GitState) (p : RPath) :
    (∀ t, parentTree env s = .ok t →
      (treeGetPath t (gitComps p) = none →
        restore_file_from_parent env p s = .err .pathNotFound s) ∧
      (∀ es, treeGetPath t (gitComps p) = some (.sub es) →
        restore_file_from_parent env p s = .err .notABlob s)) ∧
    (∀ src oid t, revparseSingle s src = some oid →
      lookupA s.commits oid = some t →
      (treeGetPath t (gitComps p) = none →
        restore_from_source src p s = .err .pathNotFound s) ∧
      (∀ es, treeGetPath t (gitComps p) = some (.sub es) →
        restore_from_source src p s = .err .notABlob s)) ∧
    (∀ oid t, lookupA s.branches s.head = some oid →
      lookupA s.commits oid = some t →
      (treeGetPath t (gitComps p) = none →
        restore_file p s = .err .pathNotFound s) ∧
      (∀ es, treeGetPath t (gitComps p) = some (.sub es) →
        restore_file p s = .err .notABlob s)) := by
  refine ⟨?_, ?_, ?_⟩
  · intro t hpt
    constructor
    · intro hnone
      simp [restore_file_from_parent, hpt, hnone]
    · intro es hsub
      simp [restore_file_from_parent, hpt, hsub]
  · intro src oid t hrev hc
    constructor
    · intro hnone
      simp [restore_from_source, hrev, hc, hnone]
    · intro es hsub
      simp [restore_from_source, hrev, hc, hsub]
  · intro oid t hh hc
    constructor
    · intro hnone
      simp [restore_file, hh, hc, hnone]
    · intro es hsub
      simp [restore_file, hh, hc, hsub]

/-- C7 witness: all six cases of the theorem applied at concrete inputs —
the path `zz` absent from the tree and the directory path `d`, against
the parent tip, the revision `Source/Current` and HEAD. -/
theorem c7_witness :
    restore_file_from_parent env0 [Comp.normal "zz"] c7s =
      .err .pathNotFound c7s ∧
    restore_file_from_parent env0 [Comp.normal "d"] c7s =
      .err .notABlob c7s ∧
    restore_from_source "Source/Current" [Comp.normal "zz"] c7s =
      .err .pathNotFound c7s ∧
    restore_from_source "Source/Current" [Comp.normal "d"] c7s =
      .err .notABlob c7s ∧
    restore_file [Comp.normal "zz"] c7s = .err .pathNotFound c7s ∧
    restore_file [Comp.normal "d"] c7s = .err .notABlob c7s :=
  ⟨((c7_not_found_not_blob env0 c7s [Comp.normal "zz"]).1 t7 rfl).1 rfl,
   ((c7_not_found_not_blob env0 c7s [Comp.normal "d"]).1 t7 rfl).2
     [("f", GEntry.blob [1])] rfl,
   ((c7_not_found_not_blob env0 c7s [Comp.normal "zz"]).2.1
     "Source/Current" 2 t7 rfl rfl).1 rfl,
   ((c7_not_found_not_blob env0 c7s [Comp.normal "d"]).2.1
     "Source/Current" 2 t7 rfl rfl).2 [("f", GEntry.blob [1])] rfl,
   ((c7_not_found_not_blob env0 c7s [Comp.normal "zz"]).2.2 3 t7 rfl rfl).1
     rfl,
   ((c7_not_found_not_blob env0 c7s [Comp.normal "d"]).2.2 3 t7 rfl rfl).2
     [("f", GEntry.blob [1])] rfl⟩

theorem runSteps_last_ok (l : List (String × Step)) (n : String) (f : Step)
    (s r : GitState) (h : (runSteps (l ++ [(n, f)]) s).1 = .ok r) :
    ∃ s₀, f s₀ = .ok r := by
  induction l generalizing s with
  | nil =>
    cases hf : f s with
    | ok s' =>
      simp only [List.nil_append, runSteps, hf] at h
      exact ⟨s, by rw [hf, h]⟩
    | err e s' => simp [runSteps, hf] at h
    | panic s' => simp [runSteps, hf] at h
  | cons p l ih =>
    cases hg : p.2 s with
    | ok s' =>
      simp only [List.cons_append, runSteps, hg] at h
      exact ih s' h
    | err e s' =>
      simp only [List.cons_append, runSteps, hg] at h
      exact absurd h (by simp)
    | panic s' =>
      simp only [List.cons_append, runSteps, hg] at h
      exact absurd h (by simp)

/-- C3: whenever the reset-and-restore segment of `main` (hard reset to
the parent tip, unstage the manifest, the three parent-sourced restores,
the `Source/Current`-sourced restore, the HEAD-sourced restore) completes
successfully, the working-tree content of `package.json` equals the blob
content of `package.json` in the tree of the commit HEAD points at — the
last restore targeting the path (the HEAD-sourced `restore_file`) wins. -/
theorem c3_restore_precedence (env : Env) (s r : GitState)
    (h : (resetRestoreSegment env s).1 = .ok r) :
    blobContent ((headTreeOf r).bind
        (fun t => treeGetPath t ["package.json"])) =
      lookupA r.fs.files ["package.json"] ∧
    (lookupA r.fs.files ["package.json"]).isSome = true := by
  have hsplit : resetRestoreSteps env =
      [("reset_hard_to_parent", reset_hard_to_parent env),
       ("reset_file package.json", reset_file ["package.json"]),
       ("restore_file_from_parent package.json",
         restore_file_from_parent env [Comp.normal "package.json"]),
       ("restore_file_from_parent src",
         restore_file_from_parent env [Comp.normal "src"]),
       ("restore_file_from_parent tsconfig.json",
         restore_file_from_parent env [Comp.normal "tsconfig.json"]),
       ("restore_from_source Source/Current package.json",
         restore_from_source "Source/Current" [Comp.normal "package.json"])]
      ++ [("restore_file package.json",
           restore_file [Comp.normal "package.json"])] := rfl
  rw [resetRestoreSegment, hsplit] at h
  obtain ⟨s₀, hf⟩ := runSteps_last_ok _ _ _ _ _ h
  unfold restore_file at hf
  cases h1 : lookupA s₀.branches s₀.head with
  | none => simp only [h1] at hf; exact absurd hf (by simp)
  | some oid =>
  simp only [h1] at hf
  cases h2 : lookupA s₀.commits oid with
  | none => simp only [h2] at hf; exact absurd hf (by simp)
  | some t =>
  simp only [h2] at hf
  cases h3 : treeGetPath t (gitComps [Comp.normal "package.json"]) with
  | none => simp only [h3] at hf; exact absurd hf (by simp)
  | some entry =>
  simp only [h3] at hf
  cases entry with
  | sub es => exact absurd hf (by simp)
  | blob c =>
  cases h4 : fsWrite s₀.fs (osNorm [Comp.normal "package.json"]) c with
  | none => simp only [h4] at hf; exact absurd hf (by simp)
  | some fs' =>
  simp only [h4] at hf
  have hr : { s₀ with fs := fs' } = r := by
    injection hf
  have hfs' := fsWrite_eq_some h4
  subst hr
  have hht : headTreeOf { s₀ with fs := fs' } = some t := by
    simp [headTreeOf, h1, h2]
  rw [hht]
  have hgc : gitComps [Comp.normal "package.json"] = ["package.json"] := rfl
  rw [hgc] at h3
  have hos : osNorm [Comp.normal "package.json"] = ["package.json"] := rfl
  rw [hos] at hfs'
  have hlook : lookupA fs'.files ["package.json"] = some c := by
    rw [hfs']
    exact lookupA_updF_self _ _ _
  simp only [Option.bind_some, blobContent]
  simp [hlook, h3]

/-- C3 witness: the theorem applied to a concrete run of the segment in
which the parent-sourced `package.json` is `[10]`, the
`Source/Current`-sourced one is `[20]`, and after the hard reset HEAD's
branch points at the parent commit — the final content is `[10]`, the
HEAD-tree blob. -/
theorem c3_witness :
    (resetRestoreSegment env0 c3s).1 =
      .ok ((resetRestoreSegment env0 c3s).1.state) ∧
    blobContent ((headTreeOf ((resetRestoreSegment env0 c3s).1.state)).bind
        (fun t => treeGetPath t ["package.json"])) =
      lookupA ((resetRestoreSegment env0 c3s).1.state).fs.files
        ["package.json"] ∧
    (lookupA ((resetRestoreSegment env0 c3s).1.state).fs.files
        ["package.json"]).isSome = true ∧
    lookupA ((resetRestoreSegment env0 c3s).1.state).fs.files
      ["package.json"] = some [10] := by
  have h : (resetRestoreSegment env0 c3s).1 =
      .ok ((resetRestoreSegment env0 c3s).1.state) := rfl
  obtain ⟨ha, hb⟩ := c3_restore_precedence env0 c3s _ h
  exact ⟨h, ha, hb, rfl⟩

theorem runSteps_trace_prefix (L : List (String × Step)) (s : GitState) :
    (runSteps L s).2 <+: L.map Prod.fst := by
  induction L generalizing s with
  | nil => simp [runSteps]
  | cons p rest ih =>
    obtain ⟨n, f⟩ := p
    cases hf : f s with
    | ok s' =>
      simp only [runSteps, hf, List.map_cons]
      obtain ⟨t, ht⟩ := ih s'
      exact ⟨t, by rw [List.cons_append, ht]⟩
    | err e s' =>
      simp only [runSteps, hf, List.map_cons]
      exact ⟨List.map Prod.fst rest, rfl⟩
    | panic s' =>
      simp only [runSteps, hf, List.map_cons]
      exact ⟨List.map Prod.fst rest, rfl⟩

theorem names_after_stop {α : Type} [DecidableEq α] {L tr : List α}
    (hpre : tr <+: L) (hnd : L.Nodup) (j : Nat) (hj : j < L.length)
    (hge : tr.length ≤ j) : L.get ⟨j, hj⟩ ∉ tr := by
  have htake : tr = L.take tr.length := List.prefix_iff_eq_take.mp hpre
  have hdisj : List.Disjoint (L.take tr.length) (L.drop tr.length) :=
    List.disjoint_take_drop hnd le_rfl
  have hlt : j - tr.length < (L.drop tr.length).length := by
    rw [List.length_drop]
    omega
  have hmem : L.get ⟨j, hj⟩ ∈ L.drop tr.length := by
    have heq : (L.drop tr.length).get ⟨j - tr.length, hlt⟩ = L.get ⟨j, hj⟩ := by
      rw [List.get_eq_getElem, List.get_eq_getElem]
      simp only [Fin.val_mk]
      rw [List.getElem_drop]
      congr 1
      omega
    rw [← heq]
    exact List.get_mem _ _ _
  intro hin
  rw [htake] at hin
  exact hdisj hin hmem

/-- C4, counterexample: in a world where the `git pull` subprocess runs
and exits with the failure status 5, `main` does NOT abort at the pull
step — `.status()?` only fails when the process cannot be spawned, the
exit status is ignored — and the later push steps still run, so the claim
that a failing pull (or clean, unshallow-fetch, default-repo, submodule)
step aborts the pipeline is false at this input. -/
theorem c4_counterexample :
    w4.pullSpawn = true ∧ w4.pullExit = 5 ∧
    (mainRun w4 s4).2 =
      ["restore_gitignore_from_parent", "restore_package_json_from_parent",
       "set_default_repo", "add_all", "set_upstream Current",
       "set_upstream Previous", "clean", "fetch_from_remote Parent",
       "fetch_from_remote Source", "fetch_unshallow Parent",
       "merge_from_parent", "pull", "push Source HEAD",
       "push_set_upstream Source Branch", "add_remote Parent"] ∧
    "push Source HEAD" ∈ (mainRun w4 s4).2 ∧
    "push_set_upstream Source Branch" ∈ (mainRun w4 s4).2 := by
  have ht : (mainRun w4 s4).2 =
      ["restore_gitignore_from_parent", "restore_package_json_from_parent",
       "set_default_repo", "add_all", "set_upstream Current",
       "set_upstream Previous", "clean", "fetch_from_remote Parent",
       "fetch_from_remote Source", "fetch_unshallow Parent",
       "merge_from_parent", "pull", "push Source HEAD",
       "push_set_upstream Source Branch", "add_remote Parent"] := rfl
  refine ⟨rfl, rfl, ht, ?_, ?_⟩
  · rw [ht]
    decide
  · rw [ht]
    decide

/-- C4 as amended: the `?`-chained pipeline aborts as soon as a step
returns an error — the executed-step trace is a prefix of the step list
and every step past the stopping point never runs; however, the five
subprocess-based steps (set_default_repo, clean, fetch_unshallow, pull,
add_submodule) return an error only when the subprocess cannot be
spawned: a subprocess that runs and exits non-zero is treated as success,
so those steps failing does not abort the pipeline. -/
theorem c4_amended (w : World) (s : GitState) :
    ((mainRun w s).2 <+: mainStepNames) ∧
    (∀ j, (hj : j < mainStepNames.length) → (mainRun w s).2.length ≤ j →
      mainStepNames.get ⟨j, hj⟩ ∉ (mainRun w s).2) ∧
    (w.ghSetDefaultSpawn = true → ∀ s', containsK s'.remotes "Source" = true →
      set_default_repo w s' = .ok s') ∧
    (w.cleanSpawn = true → ∀ s', clean w s' = .ok (w.cleanEffect s')) ∧
    (w.unshallowSpawn = true → ∀ s',
      fetch_unshallow w s' = .ok (w.unshallowEffect s')) ∧
    (w.pullSpawn = true → ∀ s', pull w s' = .ok (w.pullEffect s')) ∧
    (w.submoduleSpawn = true → ∀ s',
      add_submodule w s' = .ok (w.submoduleEffect s')) := by
  have hpre : (mainRun w s).2 <+: mainStepNames := by
    have h := runSteps_trace_prefix (mainSteps w) s
    have hm : (mainSteps w).map Prod.fst = mainStepNames := rfl
    rwa [hm] at h
  have hnd : mainStepNames.Nodup := by decide
  refine ⟨hpre, ?_, ?_, ?_, ?_, ?_, ?_⟩
  · intro j hj hge
    exact names_after_stop hpre hnd j hj hge
  · intro h s' hc
    simp [set_default_repo, hc, h]
  · intro h s'
    simp [clean, h]
  · intro h s'
    simp [fetch_unshallow, h]
  · intro h s'
    simp [pull, h]
  · intro h s'
    simp [add_submodule, h]

/-- C4 witness: the amended theorem applied at the counterexample world
and state — the step at index 20 (`reset_hard_to_parent`), past the
abort, never ran, and each subprocess step with a successful spawn
returns ok regardless of its exit status. -/
theorem c4_amended_witness :
    "reset_hard_to_parent" ∉ (mainRun w4 s4).2 ∧
    pull w4 s4 = .ok (w4.pullEffect s4) ∧
    clean w4 s4 = .ok (w4.cleanEffect s4) ∧
    fetch_unshallow w4 s4 = .ok (w4.unshallowEffect s4) ∧
    add_submodule w4 s4 = .ok (w4.submoduleEffect s4) ∧
    set_default_repo w4 s4 = .ok s4 := by
  have h20 : mainStepNames.get ⟨20, by decide⟩ = "reset_hard_to_parent" := rfl
  refine ⟨?_, ?_, ?_, ?_, ?_, ?_⟩
  · have h := (c4_amended w4 s4).2.1 20 (by decide) (by decide)
    rwa [h20] at h
  · exact (c4_amended w4 s4).2.2.2.2.2.1 rfl s4
  · exact (c4_amended w4 s4).2.2.2.1 rfl s4
  · exact (c4_amended w4 s4).2.2.2.2.1 rfl s4
  · exact (c4_amended w4 s4).2.2.2.2.2.2 rfl s4
  · exact (c4_amended w4 s4).2.2.1 rfl s4 rfl

theorem restore_file_from_parent_spec (env : Env) (p : RPath) (s : GitState) :
    restore_file_from_parent env p s =
      match restoreCore env s.remoteBranches s.commits s.fs.dirs p with
      | .rpanic => .panic s
      | .rerr e => .err e s
      | .rwrite k c =>
        .ok { s with fs := { files := updF s.fs.files k c,
                             dirs := s.fs.dirs } } := by
  unfold restore_file_from_parent restoreCore parentTree fsWrite
  cases hg : get_parent_default_branch env with
  | panic => simp only [hg]
  | err e => simp only [hg]
  | ok b =>
    simp only [hg]
    cases hrb : lookupA s.remoteBranches ("Parent/" ++ b) with
    | none => simp only [hrb]
    | some oid =>
      simp only [hrb]
      cases hcm : lookupA s.commits oid with
      | none => simp only [hcm]
      | some t =>
        simp only [hcm]
        cases htp : treeGetPath t (gitComps p) with
        | none => simp only [htp]
        | some e =>
          cases e with
          | sub es => simp only [htp]
          | blob c =>
            simp only [htp]
            by_cases h1 : osNorm p = []
            · simp [h1]
            · by_cases h2 : osNorm p ∈ s.fs.dirs
              · simp [h1, h2]
              · by_cases h3 : (osNorm p).dropLast = [] ∨
                    (osNorm p).dropLast ∈ s.fs.dirs
                · simp [h1, h2, h3]
                · simp [h1, h2, h3]

theorem restoreCore_rwrite_inv {env : Env} {rb : List (String × Nat)}
    {cm : List (Nat × GTree)} {dirs : List (List String)} {p : RPath}
    {k : List String} {c : List Nat}
    (h : restoreCore env rb cm dirs p = .rwrite k c) :
    k = osNorm p ∧ osNorm p ∉ dirs := by
  unfold restoreCore at h
  repeat' split at h
  all_goals simp_all

theorem sweepGo_preserves (env : Env) : ∀ (ts : List RPath) (s : GitState),
    (sweepGo env ts s).state.remotes = s.remotes ∧
    (sweepGo env ts s).state.branches = s.branches ∧
    (sweepGo env ts s).state.remoteBranches = s.remoteBranches ∧
    (sweepGo env ts s).state.upstreams = s.upstreams ∧
    (sweepGo env ts s).state.head = s.head ∧
    (sweepGo env ts s).state.index = s.index ∧
    (sweepGo env ts s).state.commits = s.commits ∧
    (sweepGo env ts s).state.fs.dirs = s.fs.dirs := by
  intro ts
  induction ts with
  | nil =>
    intro s
    exact ⟨rfl, rfl, rfl, rfl, rfl, rfl, rfl, rfl⟩
  | cons t ts ih =>
    intro s
    cases hrc : restoreCore env s.remoteBranches s.commits s.fs.dirs t with
    | rpanic =>
      simp only [sweepGo, restore_file_from_parent_spec, hrc]
      exact ⟨rfl, rfl, rfl, rfl, rfl, rfl, rfl, rfl⟩
    | rerr e =>
      simp only [sweepGo, restore_file_from_parent_spec, hrc]
      exact ⟨rfl, rfl, rfl, rfl, rfl, rfl, rfl, rfl⟩
    | rwrite k c =>
      simp only [sweepGo, restore_file_from_parent_spec, hrc]
      exact ih { s with fs := { files := updF s.fs.files k c,
                                dirs := s.fs.dirs } }

theorem sweepGo_nodup (env : Env) : ∀ (ts : List RPath) (s : GitState),
    (s.fs.files.map Prod.fst).Nodup →
    ((sweepGo env ts s).state.fs.files.map Prod.fst).Nodup := by
  intro ts
  induction ts with
  | nil => intro s h; exact h
  | cons t ts ih =>
    intro s h
    cases hrc : restoreCore env s.remoteBranches s.commits s.fs.dirs t with
    | rpanic => simp only [sweepGo, restore_file_from_parent_spec, hrc]; exact h
    | rerr e => simp only [sweepGo, restore_file_from_parent_spec, hrc]; exact h
    | rwrite k c =>
      simp only [sweepGo, restore_file_from_parent_spec, hrc]
      exact ih { s with fs := { files := updF s.fs.files k c,
                                dirs := s.fs.dirs } }
        (nodup_keys_updF _ _ _ h)

theorem sweepGo_lookup_preserved (env : Env) :
    ∀ (ts : List RPath) (s : GitState) (k : List String),
    k ∉ ts.map osNorm →
    lookupA (sweepGo env ts s).state.fs.files k = lookupA s.fs.files k := by
  intro ts
  induction ts with
  | nil => intro s k _; rfl
  | cons t ts ih =>
    intro s k hk
    rw [List.map_cons, List.mem_cons, not_or] at hk
    cases hrc : restoreCore env s.remoteBranches s.commits s.fs.dirs t with
    | rpanic => simp only [sweepGo, restore_file_from_parent_spec, hrc]; rfl
    | rerr e => simp only [sweepGo, restore_file_from_parent_spec, hrc]; rfl
    | rwrite k' c =>
      obtain ⟨hk', _⟩ := restoreCore_rwrite_inv hrc
      simp only [sweepGo, restore_file_from_parent_spec, hrc]
      rw [ih { s with fs := { files := updF s.fs.files k' c,
                              dirs := s.fs.dirs } } k hk.2]
      exact lookupA_updF_ne _ _ _ _ (hk' ▸ hk.1)

theorem sweepGo_rerun (env : Env) : ∀ (ts : List RPath) (s : GitState),
    (s.fs.files.map Prod.fst).Nodup → (ts.map osNorm).Nodup →
    sweepGo env ts ((sweepGo env ts s).state) = sweepGo env ts s := by
  intro ts
  induction ts with
  | nil => intro s _ _; rfl
  | cons t ts ih =>
    intro s hnd hknd
    rw [List.map_cons, List.nodup_cons] at hknd
    cases hrc : restoreCore env s.remoteBranches s.commits s.fs.dirs t with
    | rpanic =>
      have h1 : sweepGo env (t :: ts) s = .panic s := by
        simp only [sweepGo, restore_file_from_parent_spec, hrc]
      rw [h1]
      exact h1
    | rerr e =>
      have h1 : sweepGo env (t :: ts) s = .err e s := by
        simp only [sweepGo, restore_file_from_parent_spec, hrc]
      rw [h1]
      exact h1
    | rwrite k c =>
      obtain ⟨hkeq, _⟩ := restoreCore_rwrite_inv hrc
      set s' : GitState :=
        { s with fs := { files := updF s.fs.files k c, dirs := s.fs.dirs } }
        with hs'
      have h1 : sweepGo env (t :: ts) s = sweepGo env ts s' := by
        simp only [sweepGo, restore_file_from_parent_spec, hrc]
      rw [h1]
      have hpres := sweepGo_preserves env ts s'
      have hrc₁ : restoreCore env ((sweepGo env ts s').state).remoteBranches
          ((sweepGo env ts s').state).commits
          ((sweepGo env ts s').state).fs.dirs t = .rwrite k c := by
        rw [hpres.2.2.1, hpres.2.2.2.2.2.2.1, hpres.2.2.2.2.2.2.2]
        exact hrc
      have hlook : lookupA ((sweepGo env ts s').state).fs.files k = some c := by
        rw [sweepGo_lookup_preserved env ts s' k (hkeq ▸ hknd.1)]
        exact lookupA_updF_self _ _ _
      have hnd₁ : (((sweepGo env ts s').state).fs.files.map Prod.fst).Nodup :=
        sweepGo_nodup env ts s' (nodup_keys_updF _ _ _ hnd)
      have hstep : restore_file_from_parent env t ((sweepGo env ts s').state) =
          .ok ((sweepGo env ts s').state) := by
        simp only [restore_file_from_parent_spec, hrc₁]
        rw [updF_eq_of_lookup _ _ _ hnd₁ hlook]
      have h2 : sweepGo env (t :: ts) ((sweepGo env ts s').state) =
          sweepGo env ts ((sweepGo env ts s').state) := by
        simp only [sweepGo, hstep]
      rw [h2]
      exact ih s' (nodup_keys_updF _ _ _ hnd) hknd.2

theorem osNorm_cons_curDir (p : RPath) :
    osNorm (Comp.curDir :: p) = osNorm p := by
  unfold osNorm
  rw [List.filterMap_cons]

theorem osNorm_map_normal (l : List String) :
    osNorm (l.map Comp.normal) = l := by
  induction l with
  | nil => rfl
  | cons a l ih =>
    unfold osNorm at ih ⊢
    rw [List.map_cons, List.filterMap_cons]
    exact congrArg (a :: ·) ih

theorem osNorm_curDir_map (l : List String) :
    osNorm (Comp.curDir :: l.map Comp.normal) = l := by
  rw [osNorm_cons_curDir, osNorm_map_normal]

theorem walkPaths_eq (fs : FS) :
    walkPaths fs = [Comp.curDir] ::
      (fs.dirs.map (fun d => Comp.curDir :: d.map Comp.normal) ++
       (fs.files.map Prod.fst).map
         (fun k => Comp.curDir :: k.map Comp.normal)) := by
  unfold walkPaths
  rw [List.map_map]
  rfl

theorem sweepTargets_mem (fs : FS) (f : String) :
    ∀ t ∈ sweepTargets fs f,
      osNorm t ∈ fs.files.map Prod.fst ∨ osNorm t ∈ fs.dirs := by
  intro t ht
  unfold sweepTargets at ht
  rw [List.mem_filter] at ht
  obtain ⟨hw, hm⟩ := ht
  rw [walkPaths_eq] at hw
  rcases List.mem_cons.mp hw with hroot | hw'
  · subst hroot
    simp [sweepMatch, fileName] at hm
  · rcases List.mem_append.mp hw' with hd | hf
    · obtain ⟨d, hdmem, rfl⟩ := List.mem_map.mp hd
      right
      rw [osNorm_curDir_map]
      exact hdmem
    · obtain ⟨k, hkmem, rfl⟩ := List.mem_map.mp hf
      left
      rw [osNorm_curDir_map]
      exact hkmem

theorem sweepTargets_keys_nodup (fs : FS) (f : String) (h : FS.WF fs) :
    ((sweepTargets fs f).map osNorm).Nodup := by
  obtain ⟨hnd, hdnd, hdisj, hroot, hrootf⟩ := h
  have hsub : List.Sublist (sweepTargets fs f) (walkPaths fs) :=
    List.filter_sublist _
  have hmap : List.Sublist ((sweepTargets fs f).map osNorm)
      ((walkPaths fs).map osNorm) := hsub.map osNorm
  apply List.Nodup.sublist hmap
  rw [walkPaths_eq]
  have hcomp : ∀ l : List (List String),
      l.map (osNorm ∘ fun d => Comp.curDir :: d.map Comp.normal) = l := by
    intro l
    calc l.map (osNorm ∘ fun d => Comp.curDir :: d.map Comp.normal)
        = l.map id := List.map_congr_left (fun a _ => osNorm_curDir_map a)
      _ = l := List.map_id l
  rw [List.map_cons, List.map_append, List.map_map, List.map_map]
  rw [show osNorm [Comp.curDir] = [] from rfl, hcomp, hcomp]
  rw [List.nodup_cons, List.nodup_append]
  refine ⟨?_, hdnd, hnd, fun a ha hb => hdisj a hb ha⟩
  rw [List.mem_append]
  rintro (hcon | hcon)
  · exact hroot hcon
  · exact hrootf hcon

theorem sweepGo_keys_preserved (env : Env) : ∀ (ts : List RPath) (s : GitState),
    (∀ t ∈ ts, osNorm t ∈ s.fs.files.map Prod.fst ∨ osNorm t ∈ s.fs.dirs) →
    (sweepGo env ts s).state.fs.files.map Prod.fst =
      s.fs.files.map Prod.fst := by
  intro ts
  induction ts with
  | nil => intro s _; rfl
  | cons t ts ih =>
    intro s h
    cases hrc : restoreCore env s.remoteBranches s.commits s.fs.dirs t with
    | rpanic =>
      simp only [sweepGo, restore_file_from_parent_spec, hrc]
      rfl
    | rerr e =>
      simp only [sweepGo, restore_file_from_parent_spec, hrc]
      rfl
    | rwrite k c =>
      obtain ⟨hkeq, hnotdir⟩ := restoreCore_rwrite_inv hrc
      subst hkeq
      have hmem : osNorm t ∈ s.fs.files.map Prod.fst := by
        rcases h t (List.mem_cons_self t ts) with hf | hd
        · exact hf
        · exact absurd hd hnotdir
      have hcont : containsK s.fs.files (osNorm t) = true :=
        (containsK_true_iff _ _).mpr hmem
      have hkeys : (updF s.fs.files (osNorm t) c).map Prod.fst =
          s.fs.files.map Prod.fst := keys_updF_of_contains _ _ _ hcont
      simp only [sweepGo, restore_file_from_parent_spec, hrc]
      rw [ih { s with fs := { files := updF s.fs.files (osNorm t) c,
                              dirs := s.fs.dirs } } ?hmem']
      · exact hkeys
      case hmem' =>
        intro t' ht'
        rcases h t' (List.mem_cons_of_mem t ht') with hf | hd
        · left
          show osNorm t' ∈ (updF s.fs.files (osNorm t) c).map Prod.fst
          rw [hkeys]
          exact hf
        · right
          exact hd

theorem sweepTargets_congr {fs fs' : FS} (f : String)
    (hk : fs.files.map Prod.fst = fs'.files.map Prod.fst)
    (hd : fs.dirs = fs'.dirs) : sweepTargets fs f = sweepTargets fs' f := by
  unfold sweepTargets
  rw [walkPaths_eq, walkPaths_eq, hk, hd]

theorem restore_matching_rerun (env : Env) (f : String) (s : GitState)
    (h : FS.WF s.fs) :
    restore_matching_from_parent env f
        ((restore_matching_from_parent env f s).state) =
      restore_matching_from_parent env f s := by
  unfold restore_matching_from_parent
  cases hg : get_parent_default_branch env with
  | panic =>
    simp only [hg]
    rfl
  | err e =>
    simp only [hg]
    rfl
  | ok b =>
    simp only [hg]
    have hkeys : ((sweepGo env (sweepTargets s.fs f) s).state).fs.files.map
        Prod.fst = s.fs.files.map Prod.fst :=
      sweepGo_keys_preserved env (sweepTargets s.fs f) s
        (sweepTargets_mem s.fs f)
    have hdirs : ((sweepGo env (sweepTargets s.fs f) s).state).fs.dirs =
        s.fs.dirs :=
      (sweepGo_preserves env (sweepTargets s.fs f) s).2.2.2.2.2.2.2
    have htargets : sweepTargets
        ((sweepGo env (sweepTargets s.fs f) s).state).fs f =
        sweepTargets s.fs f := sweepTargets_congr f hkeys hdirs
    rw [htargets]
    exact sweepGo_rerun env (sweepTargets s.fs f) s h.1
      (sweepTargets_keys_nodup s.fs f h)

/-- C8: the Override Sweeper is idempotent — for every repository state
whose working tree is a well-formed filesystem snapshot and an unchanged
parent branch tip (the same platform responses and repository data),
running `restore_gitignore_from_parent` (and likewise
`restore_package_json_from_parent`) a second time immediately after a
first run returns the identical result and leaves the working tree
exactly as the first run left it: every write of the second run stores
content already on disk. -/
theorem c8_sweeper_idempotent (env : Env) (s : GitState) (h : FS.WF s.fs) :
    restore_gitignore_from_parent env
        ((restore_gitignore_from_parent env s).state) =
      restore_gitignore_from_parent env s ∧
    restore_package_json_from_parent env
        ((restore_package_json_from_parent env s).state) =
      restore_package_json_from_parent env s :=
  ⟨restore_matching_rerun env ".gitignore" s h,
   restore_matching_rerun env "package.json" s h⟩

/-- C8 witness: the theorem applied to the concrete working tree `c2fs`
(well-formed by computation). -/
theorem c8_witness :
    FS.WF c2fs ∧
    restore_gitignore_from_parent env0
        ((restore_gitignore_from_parent env0 s8).state) =
      restore_gitignore_from_parent env0 s8 ∧
    restore_package_json_from_parent env0
        ((restore_package_json_from_parent env0 s8).state) =
      restore_package_json_from_parent env0 s8 :=
  ⟨by decide,
   (c8_sweeper_idempotent env0 s8 (by decide)).1,
   (c8_sweeper_idempotent env0 s8 (by decide)).2⟩
